import Mathlib

/-!
Verification development for the puppet-animation editor's core:
rig/pose evaluation (`Pantin.tsx`), rigid attachment (`SidePanel.tsx`),
and the keyframe timeline engine (`timelineUtils` / `Timeline.tsx`).

JavaScript numbers are modelled by `ℚ` (exact arithmetic); `Math.round`
and the `%` operator are modelled explicitly below.
-/

namespace Walou

/-- JS `Math.round`: round half toward +∞, i.e. `⌊q + 1/2⌋`. -/
def jsRound (q : ℚ) : ℤ := ⌊q + 1/2⌋

theorem jsRound_close (q : ℚ) : |(jsRound q : ℚ) - q| ≤ 1/2 := by
  rw [abs_sub_le_iff]
  constructor
  · have h := Int.floor_le (q + 1/2)
    simp only [jsRound]
    linarith
  · have h := Int.lt_floor_add_one (q + 1/2)
    simp only [jsRound]
    push_cast at h ⊢
    linarith

/-- Truncation toward zero on `ℚ`, as JS division-based remainders use. -/
def qtrunc (q : ℚ) : ℤ := if 0 ≤ q then ⌊q⌋ else ⌈q⌉

/-- JS `%` on numbers: truncated remainder `a - b * trunc (a / b)`. -/
def jsRem (a b : ℚ) : ℚ := a - b * qtrunc (a / b)

/-- The JS idiom `((x + 180) % 360 + 360) % 360 - 180` from
`Pantin.tsx handlePointerMove` and `SidePanel.tsx calculateAndDetachObject`. -/
def wrap180 (x : ℚ) : ℚ := jsRem (jsRem (x + 180) 360 + 360) 360 - 180

theorem jsRem_bounds_of_nonneg {a b : ℚ} (ha : 0 ≤ a) (hb : 0 < b) :
    0 ≤ jsRem a b ∧ jsRem a b < b := by
  have hq : 0 ≤ a / b := by positivity
  have htr : qtrunc (a / b) = ⌊a / b⌋ := by simp [qtrunc, hq]
  have h1 : (⌊a / b⌋ : ℚ) ≤ a / b := Int.floor_le _
  have h2 : a / b < ⌊a / b⌋ + 1 := Int.lt_floor_add_one _
  have h1' : (⌊a / b⌋ : ℚ) * b ≤ a := (le_div_iff hb).mp h1
  have h2' : a < ((⌊a / b⌋ : ℚ) + 1) * b := (div_lt_iff hb).mp h2
  unfold jsRem
  rw [htr]
  constructor <;> nlinarith

theorem jsRem_bounds_of_neg {a b : ℚ} (ha : a < 0) (hb : 0 < b) :
    -b < jsRem a b ∧ jsRem a b ≤ 0 := by
  have hq : a / b < 0 := div_neg_of_neg_of_pos ha hb
  have htr : qtrunc (a / b) = ⌈a / b⌉ := by simp [qtrunc, not_le.mpr hq]
  have h1 : a / b ≤ (⌈a / b⌉ : ℚ) := Int.le_ceil _
  have h2 : (⌈a / b⌉ : ℚ) - 1 < a / b := by
    have := Int.ceil_lt_add_one (a / b)
    linarith
  have h1' : a ≤ (⌈a / b⌉ : ℚ) * b := (div_le_iff hb).mp h1
  have h2' : ((⌈a / b⌉ : ℚ) - 1) * b < a := (lt_div_iff hb).mp h2
  unfold jsRem
  rw [htr]
  constructor <;> nlinarith

/-- The code's normalization lands in the half-open interval `[-180, 180)`. -/
theorem wrap180_mem (x : ℚ) : -180 ≤ wrap180 x ∧ wrap180 x < 180 := by
  unfold wrap180
  have h360 : (0:ℚ) < 360 := by norm_num
  have hu : 0 ≤ jsRem (x + 180) 360 + 360 := by
    rcases le_or_lt 0 (x + 180) with h | h
    · have := (jsRem_bounds_of_nonneg h h360).1
      linarith
    · have := (jsRem_bounds_of_neg h h360).1
      linarith
  have := jsRem_bounds_of_nonneg hu h360
  constructor <;> linarith [this.1, this.2]

theorem wrap180_lb (x : ℚ) : -180 ≤ wrap180 x := (wrap180_mem x).1

theorem wrap180_ub (x : ℚ) : wrap180 x < 180 := (wrap180_mem x).2

/-- `wrap180` only shifts by whole turns. -/
theorem wrap180_sub_int (x : ℚ) : ∃ k : ℤ, x - wrap180 x = 360 * k := by
  refine ⟨qtrunc ((x + 180) / 360) +
          qtrunc ((jsRem (x + 180) 360 + 360) / 360) - 1, ?_⟩
  unfold wrap180 jsRem
  push_cast
  ring

/-! ## 2D affine matrices (DOMMatrix 6-parameter form `[a, b, c, d, e, f]`)

A matrix maps `(x, y) ↦ (a*x + c*y + e, b*x + d*y + f)`, exactly as
`SVGMatrix`/`DOMMatrix` does in the attachment code of `SidePanel.tsx`. -/

@[ext]
structure Mat where
  a : ℚ
  b : ℚ
  c : ℚ
  d : ℚ
  e : ℚ
  f : ℚ
  deriving DecidableEq, Repr

namespace Mat

/-- `m.mul n` models `m.multiply(n)`: apply `n` first, then `m`. -/
def mul (m n : Mat) : Mat :=
  { a := m.a * n.a + m.c * n.b
    b := m.b * n.a + m.d * n.b
    c := m.a * n.c + m.c * n.d
    d := m.b * n.c + m.d * n.d
    e := m.a * n.e + m.c * n.f + m.e
    f := m.b * n.e + m.d * n.f + m.f }

def idm : Mat := ⟨1, 0, 0, 1, 0, 0⟩

def det (m : Mat) : ℚ := m.a * m.d - m.b * m.c

/-- `m.inv?` models `m.inverse()`: `none` when the matrix is singular
(where the DOM call would throw). -/
def inv? (m : Mat) : Option Mat :=
  if m.det = 0 then none
  else
    some
      { a := m.d / m.det
        b := -m.b / m.det
        c := -m.c / m.det
        d := m.a / m.det
        e := (m.c * m.f - m.d * m.e) / m.det
        f := (m.b * m.e - m.a * m.f) / m.det }

/-- Apply the affine map to a point. -/
def apply (m : Mat) (p : ℚ × ℚ) : ℚ × ℚ :=
  (m.a * p.1 + m.c * p.2 + m.e, m.b * p.1 + m.d * p.2 + m.f)

theorem mul_inv? {m : Mat} {mi : Mat} (h : m.inv? = some mi) :
    m.mul mi = idm := by
  unfold inv? at h
  by_cases hd : m.det = 0
  · simp [hd] at h
  · simp only [hd, if_false, Option.some.injEq] at h
    subst h
    unfold mul idm det at *
    have hd' : m.a * m.d - m.b * m.c ≠ 0 := hd
    refine Mat.ext ?_ ?_ ?_ ?_ ?_ ?_ <;> (simp only [det]; field_simp; ring)

theorem inv?_mul {m : Mat} {mi : Mat} (h : m.inv? = some mi) :
    mi.mul m = idm := by
  unfold inv? at h
  by_cases hd : m.det = 0
  · simp [hd] at h
  · simp only [hd, if_false, Option.some.injEq] at h
    subst h
    unfold mul idm det at *
    have hd' : m.a * m.d - m.b * m.c ≠ 0 := hd
    refine Mat.ext ?_ ?_ ?_ ?_ ?_ ?_ <;> (simp only [det]; field_simp; ring)

theorem mul_assoc (m n p : Mat) : (m.mul n).mul p = m.mul (n.mul p) := by
  unfold mul
  refine Mat.ext ?_ ?_ ?_ ?_ ?_ ?_ <;> (dsimp only; ring)

theorem idm_mul (m : Mat) : idm.mul m = m := by
  unfold mul idm
  refine Mat.ext ?_ ?_ ?_ ?_ ?_ ?_ <;> (dsimp only; ring)

theorem mul_idm (m : Mat) : m.mul idm = m := by
  unfold mul idm
  refine Mat.ext ?_ ?_ ?_ ?_ ?_ ?_ <;> (dsimp only; ring)

/-- Cancellation: `m ⬝ (m⁻¹ ⬝ c) = c`. -/
theorem mul_inv?_mul {m mi : Mat} (h : m.inv? = some mi) (c : Mat) :
    m.mul (mi.mul c) = c := by
  rw [← mul_assoc, mul_inv? h, idm_mul]

end Mat

/-! ## Attachment engine (`SidePanel.tsx`)

`calculateAndSetAttachment` reads the child's and the parent limb's screen
CTMs, stores `relative = limb⁻¹ ⬝ child` in `attachmentInfo` and zeroes the
child's `x`/`y`.  `calculateAndDetachObject` reads the attached element's
screen bounding box and CTM, converts the box's visual center through the
viewport transform, and bakes position and rotation back into the object. -/

structure AttachmentInfo where
  parentId : String
  limbId : String
  /-- The `matrix(a, b, c, d, e, f)` string stores exactly these six numbers. -/
  transform : Mat
  deriving DecidableEq, Repr

/-- The patch passed to `onUpdateObject` by `calculateAndSetAttachment`. -/
structure AttachUpdate where
  attachmentInfo : AttachmentInfo
  x : ℚ
  y : ℚ
  deriving DecidableEq, Repr

/-- `calculateAndSetAttachment` from `SidePanel.tsx`.  The two `Option Mat`
arguments model `getScreenCTM()` results (`none` = element not resolvable /
no CTM); any failure aborts with no state mutation (`none`). -/
def calculateAndSetAttachment (childCTM limbCTM : Option Mat)
    (parentId limbId : String) : Option AttachUpdate :=
  match childCTM, limbCTM with
  | some childMatrix, some limbMatrix =>
    (limbMatrix.inv?).map fun li =>
      { attachmentInfo :=
          { parentId := parentId, limbId := limbId
            transform := li.mul childMatrix }
        x := 0, y := 0 }
  | _, _ => none

/-- Viewport pan/zoom (`transformState` of the canvas). -/
structure Viewport where
  positionX : ℚ
  positionY : ℚ
  scale : ℚ
  deriving DecidableEq, Repr

/-- Axis-aligned screen bounding box of a local rectangle
`[x0, x0+w0] × [y0, y0+h0]` under the affine map `m`
(models `getBoundingClientRect` of the transformed element). -/
def screenAABB (m : Mat) (x0 y0 w0 h0 : ℚ) : (ℚ × ℚ) × (ℚ × ℚ) :=
  let p1 := m.apply (x0, y0)
  let p2 := m.apply (x0 + w0, y0)
  let p3 := m.apply (x0, y0 + h0)
  let p4 := m.apply (x0 + w0, y0 + h0)
  ((min (min p1.1 p2.1) (min p3.1 p4.1), min (min p1.2 p2.2) (min p3.2 p4.2)),
   (max (max p1.1 p2.1) (max p3.1 p4.1), max (max p1.2 p2.2) (max p3.2 p4.2)))

/-- Center of the screen bounding box: `rect.left + rect.width/2` etc. -/
def screenAABBCenter (m : Mat) (x0 y0 w0 h0 : ℚ) : ℚ × ℚ :=
  let box := screenAABB m x0 y0 w0 h0
  ((box.1.1 + box.2.1) / 2, (box.1.2 + box.2.2) / 2)

theorem midpoint_aux (base u v : ℚ) :
    (min (min base (base + u)) (min (base + v) (base + u + v))
      + max (max base (base + u)) (max (base + v) (base + u + v))) / 2
      = base + u / 2 + v / 2 := by
  rw [min_def, min_def, min_def, max_def, max_def, max_def]
  split_ifs <;> linarith

/-- An affine image of a rectangle has its AABB centered on the image of the
rectangle's center. -/
theorem screenAABBCenter_eq_apply_center (m : Mat) (x0 y0 w0 h0 : ℚ) :
    screenAABBCenter m x0 y0 w0 h0 = m.apply (x0 + w0 / 2, y0 + h0 / 2) := by
  unfold screenAABBCenter screenAABB Mat.apply
  dsimp only
  refine Prod.ext ?_ ?_
  · have h := midpoint_aux (m.a * x0 + m.c * y0 + m.e) (m.a * w0) (m.c * h0)
    ring_nf at h ⊢
    exact h
  · have h := midpoint_aux (m.b * x0 + m.d * y0 + m.f) (m.b * w0) (m.d * h0)
    ring_nf at h ⊢
    exact h

/-- Screen-pixel to canvas-space conversion used at detach time:
`(screen - containerRect.left - transformState.positionX) / transformState.scale`. -/
def canvasPoint (p : ℚ × ℚ) (containerLeft containerTop : ℚ) (vp : Viewport) : ℚ × ℚ :=
  ((p.1 - containerLeft - vp.positionX) / vp.scale,
   (p.2 - containerTop - vp.positionY) / vp.scale)

/-- The position part of `calculateAndDetachObject`: convert the on-screen
bounding-box center to canvas space and round the resulting top-left. -/
def detachXY (centerScreen : ℚ × ℚ) (containerLeft containerTop : ℚ)
    (vp : Viewport) (width height : ℚ) : ℤ × ℤ :=
  let cc := canvasPoint centerScreen containerLeft containerTop vp
  (jsRound (cc.1 - width / 2), jsRound (cc.2 - height / 2))

/-- The rotation part of `calculateAndDetachObject`, applied to the degree
angle `atan2(worldMatrix.b, worldMatrix.a) * 180 / π`: normalize to
`[-180, 180)` and round. -/
def detachRotation (angleDeg : ℚ) : ℤ := jsRound (wrap180 angleDeg)

/-- Rendered world transform of an attached child: the render layer nests a
`<g transform={attachmentInfo.transform}>` under the parent limb, so the
child's world CTM is `limbCTM ⬝ relative`. -/
def attachedCTM (limbCTM relative : Mat) : Mat := limbCTM.mul relative

/-- C2: a successful attach stores `inverse(limbWorldTransform) ⬝
childWorldTransform` verbatim, together with `parentId`/`limbId`, and
resets `x`/`y` to 0; a missing screen transform aborts with no mutation. -/
theorem calculateAndSetAttachment_spec (childMatrix limbMatrix : Mat)
    (parentId limbId : String) (hdet : limbMatrix.det ≠ 0) :
    calculateAndSetAttachment none (some limbMatrix) parentId limbId = none ∧
    calculateAndSetAttachment (some childMatrix) none parentId limbId = none ∧
    calculateAndSetAttachment none none parentId limbId = none ∧
    ∃ upd,
      calculateAndSetAttachment (some childMatrix) (some limbMatrix) parentId limbId
        = some upd ∧
      upd.attachmentInfo.parentId = parentId ∧
      upd.attachmentInfo.limbId = limbId ∧
      upd.x = 0 ∧ upd.y = 0 ∧
      (∀ li, limbMatrix.inv? = some li →
        upd.attachmentInfo.transform = li.mul childMatrix) ∧
      limbMatrix.mul upd.attachmentInfo.transform = childMatrix := by
  obtain ⟨li, hli⟩ : ∃ li, limbMatrix.inv? = some li := by
    unfold Mat.inv?
    rw [if_neg hdet]
    exact ⟨_, rfl⟩
  refine ⟨rfl, rfl, rfl,
    ⟨{ attachmentInfo := ⟨parentId, limbId, li.mul childMatrix⟩, x := 0, y := 0 },
     ?_, rfl, rfl, rfl, rfl, ?_, ?_⟩⟩
  · simp only [calculateAndSetAttachment, hli, Option.map_some']
  · intro li' hli'
    rw [hli] at hli'
    injection hli' with h
    rw [h]
  · exact Mat.mul_inv?_mul hli childMatrix

/-- Witness for C2 at concrete matrices. -/
theorem calculateAndSetAttachment_spec_witness :
    Mat.det ⟨2, 0, 0, 2, 1, 1⟩ ≠ 0 ∧
    (calculateAndSetAttachment none (some ⟨2, 0, 0, 2, 1, 1⟩) "parent" "limb" = none ∧
     calculateAndSetAttachment (some ⟨1, 0, 0, 1, 10, 20⟩) none "parent" "limb" = none ∧
     calculateAndSetAttachment none none "parent" "limb" = none ∧
     ∃ upd,
       calculateAndSetAttachment (some ⟨1, 0, 0, 1, 10, 20⟩) (some ⟨2, 0, 0, 2, 1, 1⟩)
           "parent" "limb" = some upd ∧
       upd.attachmentInfo.parentId = "parent" ∧
       upd.attachmentInfo.limbId = "limb" ∧
       upd.x = 0 ∧ upd.y = 0 ∧
       (∀ li, Mat.inv? ⟨2, 0, 0, 2, 1, 1⟩ = some li →
         upd.attachmentInfo.transform = li.mul ⟨1, 0, 0, 1, 10, 20⟩) ∧
       Mat.mul ⟨2, 0, 0, 2, 1, 1⟩ upd.attachmentInfo.transform = ⟨1, 0, 0, 1, 10, 20⟩) :=
  ⟨by norm_num [Mat.det],
   calculateAndSetAttachment_spec ⟨1, 0, 0, 1, 10, 20⟩ ⟨2, 0, 0, 2, 1, 1⟩
     "parent" "limb" (by norm_num [Mat.det])⟩

/-- C1: attach to a limb at a fixed pose and immediately detach with nothing
moved.  (1) The attached child's rendered world transform equals the
pre-attach one exactly; (2) the standalone `(x, y)` place the object's
bounding-box center within 1 canvas unit of its pre-attach rendered center;
(3) any angle extracted from the world matrix is unchanged by the round
trip, and the stored rounded angle is within 1° of the exact normalized
angle, which differs from the raw angle only by whole turns. -/
theorem attach_detach_round_trip (C L : Mat) (parentId limbId : String)
    (upd : AttachUpdate)
    (hupd : calculateAndSetAttachment (some C) (some L) parentId limbId = some upd)
    (vp : Viewport) (hscale : vp.scale ≠ 0)
    (containerLeft containerTop : ℚ) (x0 y0 w0 h0 : ℚ) (width height : ℚ) :
    attachedCTM L upd.attachmentInfo.transform = C ∧
    (|(((detachXY
          (screenAABBCenter (attachedCTM L upd.attachmentInfo.transform) x0 y0 w0 h0)
          containerLeft containerTop vp width height).1 : ℚ) + width / 2)
        - (canvasPoint (screenAABBCenter C x0 y0 w0 h0) containerLeft containerTop vp).1| ≤ 1 ∧
     |(((detachXY
          (screenAABBCenter (attachedCTM L upd.attachmentInfo.transform) x0 y0 w0 h0)
          containerLeft containerTop vp width height).2 : ℚ) + height / 2)
        - (canvasPoint (screenAABBCenter C x0 y0 w0 h0) containerLeft containerTop vp).2| ≤ 1) ∧
    (∀ angleOf : Mat → ℚ,
      detachRotation (angleOf (attachedCTM L upd.attachmentInfo.transform))
        = detachRotation (angleOf C) ∧
      |(detachRotation (angleOf C) : ℚ) - wrap180 (angleOf C)| ≤ 1 ∧
      ∃ k : ℤ, angleOf C - wrap180 (angleOf C) = 360 * k) := by
  have hworld : attachedCTM L upd.attachmentInfo.transform = C := by
    have hupd' : Option.map
        (fun li => ({ attachmentInfo := ⟨parentId, limbId, li.mul C⟩,
                      x := 0, y := 0 } : AttachUpdate)) L.inv? = some upd := hupd
    rcases hinv : L.inv? with _ | li
    · rw [hinv] at hupd'
      simp at hupd'
    · rw [hinv] at hupd'
      simp only [Option.map_some', Option.some.injEq] at hupd'
      rw [← hupd']
      exact Mat.mul_inv?_mul hinv C
  refine ⟨hworld, ⟨?_, ?_⟩, ?_⟩
  · rw [hworld]
    unfold detachXY
    have h := jsRound_close
      ((canvasPoint (screenAABBCenter C x0 y0 w0 h0) containerLeft containerTop vp).1
        - width / 2)
    have habs :
        ((jsRound ((canvasPoint (screenAABBCenter C x0 y0 w0 h0) containerLeft containerTop vp).1 - width / 2) : ℚ) + width / 2)
          - (canvasPoint (screenAABBCenter C x0 y0 w0 h0) containerLeft containerTop vp).1
        = (jsRound ((canvasPoint (screenAABBCenter C x0 y0 w0 h0) containerLeft containerTop vp).1 - width / 2) : ℚ)
          - ((canvasPoint (screenAABBCenter C x0 y0 w0 h0) containerLeft containerTop vp).1 - width / 2) := by
      ring
    dsimp only
    rw [habs]
    linarith [h]
  · rw [hworld]
    unfold detachXY
    have h := jsRound_close
      ((canvasPoint (screenAABBCenter C x0 y0 w0 h0) containerLeft containerTop vp).2
        - height / 2)
    have habs :
        ((jsRound ((canvasPoint (screenAABBCenter C x0 y0 w0 h0) containerLeft containerTop vp).2 - height / 2) : ℚ) + height / 2)
          - (canvasPoint (screenAABBCenter C x0 y0 w0 h0) containerLeft containerTop vp).2
        = (jsRound ((canvasPoint (screenAABBCenter C x0 y0 w0 h0) containerLeft containerTop vp).2 - height / 2) : ℚ)
          - ((canvasPoint (screenAABBCenter C x0 y0 w0 h0) containerLeft containerTop vp).2 - height / 2) := by
      ring
    dsimp only
    rw [habs]
    linarith [h]
  · intro angleOf
    refine ⟨by rw [hworld], ?_, wrap180_sub_int (angleOf C)⟩
    have h := jsRound_close (wrap180 (angleOf C))
    unfold detachRotation
    linarith [h]

/-- Concrete data for the round-trip witness: a 90°-rotated child and a
translated limb. -/
def c1Child : Mat := ⟨0, 1, -1, 0, 5, 9⟩

def c1Limb : Mat := ⟨1, 0, 0, 1, 2, 3⟩

def c1AttachUpdate : AttachUpdate := ⟨⟨"parent", "limb", ⟨0, 1, -1, 0, 3, 6⟩⟩, 0, 0⟩

def c1Viewport : Viewport := ⟨0, 0, 1⟩

/-- Witness for C1 at concrete matrices and viewport. -/
theorem attach_detach_round_trip_witness :
    (calculateAndSetAttachment (some c1Child) (some c1Limb) "parent" "limb"
      = some c1AttachUpdate) ∧
    c1Viewport.scale ≠ 0 ∧
    (attachedCTM c1Limb c1AttachUpdate.attachmentInfo.transform = c1Child ∧
     (|(((detachXY
           (screenAABBCenter (attachedCTM c1Limb c1AttachUpdate.attachmentInfo.transform) 0 0 4 6)
           0 0 c1Viewport 4 6).1 : ℚ) + 4 / 2)
         - (canvasPoint (screenAABBCenter c1Child 0 0 4 6) 0 0 c1Viewport).1| ≤ 1 ∧
      |(((detachXY
           (screenAABBCenter (attachedCTM c1Limb c1AttachUpdate.attachmentInfo.transform) 0 0 4 6)
           0 0 c1Viewport 4 6).2 : ℚ) + 6 / 2)
         - (canvasPoint (screenAABBCenter c1Child 0 0 4 6) 0 0 c1Viewport).2| ≤ 1) ∧
     (∀ angleOf : Mat → ℚ,
       detachRotation (angleOf (attachedCTM c1Limb c1AttachUpdate.attachmentInfo.transform))
         = detachRotation (angleOf c1Child) ∧
       |(detachRotation (angleOf c1Child) : ℚ) - wrap180 (angleOf c1Child)| ≤ 1 ∧
       ∃ k : ℤ, angleOf c1Child - wrap180 (angleOf c1Child) = 360 * k)) :=
  ⟨by norm_num [calculateAndSetAttachment, Mat.inv?, Mat.det, Mat.mul, c1Child, c1Limb,
      c1AttachUpdate],
   by norm_num [c1Viewport],
   attach_detach_round_trip c1Child c1Limb "parent" "limb" c1AttachUpdate
     (by norm_num [calculateAndSetAttachment, Mat.inv?, Mat.det, Mat.mul, c1Child, c1Limb,
        c1AttachUpdate])
     c1Viewport (by norm_num [c1Viewport]) 0 0 0 0 4 6 4 6⟩

/-! ## Pose evaluator and interactive rotation controller (`Pantin.tsx`) -/

/-- The bilateral mirror table hard-coded in `Pantin.tsx`. -/
def MIRROR_MAP : List (String × String) :=
  [("haut_bras_droite", "haut_bras_gauche"), ("haut_bras_gauche", "haut_bras_droite"),
   ("avant_bras_droite", "avant_bras_gauche"), ("avant_bras_gauche", "avant_bras_droite"),
   ("main_droite", "main_gauche"), ("main_gauche", "main_droite"),
   ("cuisse_droite", "cuisse_gauche"), ("cuisse_gauche", "cuisse_droite"),
   ("tibia_droite", "tibia_gauche"), ("tibia_gauche", "tibia_droite"),
   ("pied_droite", "pied_gauche"), ("pied_gauche", "pied_droite")]

def mirrorOf (part : String) : Option String := MIRROR_MAP.lookup part

/-- `(isFlipped && MIRROR_MAP[part]) ? MIRROR_MAP[part] : part` — the part id
the controller reads/stimulates for the element under the pointer. -/
def controlledPart (flipped : Bool) (part : String) : String :=
  if flipped then (mirrorOf part).getD part else part

/-- `articulation[partId] || 0` — the rotation angle `SvgPart` writes into the
element's own `style.transform`. -/
def renderAngle (articulation : List (String × ℚ)) (partId : String) : ℚ :=
  (articulation.lookup partId).getD 0

/-- The drag baseline of `onPointerDown`:
`current = articulation[ctrl] || 0; if (isFlipped) current = -current` —
this is the spec's `effectiveAngle(part)`. -/
def effectiveAngle (articulation : List (String × ℚ)) (flipped : Bool)
    (part : String) : ℚ :=
  let current := renderAngle articulation (controlledPart flipped part)
  if flipped then -current else current

/-- Screen-frame rotation sense of an element under the whole-puppet flip:
the outer `scale(-1,1)` group conjugates each per-part `rotate(θ)` into a
screen rotation of `-θ`. -/
def visualElementAngle (articulation : List (String × ℚ)) (flipped : Bool)
    (elementId : String) : ℚ :=
  if flipped then -(renderAngle articulation elementId)
  else renderAngle articulation elementId

/-- Which element the horizontal mirror displays at a canonical part's slot:
the flip moves each bilateral element to its pair's place (center parts stay). -/
def elementAtSlot (flipped : Bool) (slot : String) : String :=
  if flipped then (mirrorOf slot).getD slot else slot

/-- The mirror table is symmetric: each listed pair maps both ways. -/
theorem mirror_map_symm :
    ∀ pr ∈ MIRROR_MAP, mirrorOf pr.1 = some pr.2 ∧ mirrorOf pr.2 = some pr.1 := by
  decide

/-- C3: the pose evaluator's effective per-part angle.  The controller's
baseline equals `flipped ? -stored(mirror(part) ?? part) : stored(part)`;
that is the screen angle the renderer gives the element occupying the
part's slot; and for each mirrored pair the flipped effective angles are
the negated stored angles of the opposite sides. -/
theorem effectiveAngle_spec (articulation : List (String × ℚ)) (flipped : Bool)
    (part : String) :
    (effectiveAngle articulation flipped part =
      if flipped then -(renderAngle articulation ((mirrorOf part).getD part))
      else renderAngle articulation part) ∧
    (effectiveAngle articulation flipped part =
      visualElementAngle articulation flipped (elementAtSlot flipped part)) ∧
    (∀ L R, (L, R) ∈ MIRROR_MAP →
      effectiveAngle articulation true L = -(renderAngle articulation R) ∧
      effectiveAngle articulation true R = -(renderAngle articulation L)) := by
  refine ⟨?_, ?_, ?_⟩
  · cases flipped <;> simp [effectiveAngle, controlledPart]
  · cases flipped <;> simp [effectiveAngle, controlledPart, visualElementAngle, elementAtSlot]
  · intro L R hmem
    have h := mirror_map_symm (L, R) hmem
    constructor
    · simp [effectiveAngle, controlledPart, h.1]
    · simp [effectiveAngle, controlledPart, h.2]

/-- The articulation-change event built by `handlePointerMove`:
`final = ((ang + base + 180) % 360 + 360) % 360 - 180`, then under flip the
angle is negated and stored under the mirrored part id. -/
def handlePointerMoveEvent (ang baseAngle : ℚ) (flipped : Bool)
    (activePart : String) : String × ℚ :=
  let newAngle := ang + baseAngle
  let final := wrap180 newAngle
  let ctrl := controlledPart flipped activePart
  (ctrl, if flipped then -final else final)

/-- C7 counterexample: at raw angle 180 the normalization yields −180, which
is outside the claimed half-open interval `(-180, 180]`. -/
theorem handlePointerMove_interval_cex :
    (handlePointerMoveEvent 180 0 false "tete").2 = -180 ∧
    ¬ (-180 < (handlePointerMoveEvent 180 0 false "tete").2 ∧
       (handlePointerMoveEvent 180 0 false "tete").2 ≤ 180) := by
  have h : (handlePointerMoveEvent 180 0 false "tete").2 = -180 := by
    norm_num [handlePointerMoveEvent, controlledPart, wrap180, jsRem, qtrunc]
  refine ⟨h, ?_⟩
  rw [h]
  norm_num

/-- C7 (amended): the raw angle `pointerAngle + baseAngleOffset` is
normalized into `[-180, 180)` (not `(-180, 180]`), shifting only by whole
turns, and the emitted event carries the mirrored part id and the negated
angle when flipped. -/
theorem handlePointerMove_spec (ang baseAngle : ℚ) (flipped : Bool)
    (activePart : String) :
    -180 ≤ wrap180 (ang + baseAngle) ∧
    wrap180 (ang + baseAngle) < 180 ∧
    (∃ k : ℤ, (ang + baseAngle) - wrap180 (ang + baseAngle) = 360 * k) ∧
    handlePointerMoveEvent ang baseAngle flipped activePart =
      (controlledPart flipped activePart,
       if flipped then -(wrap180 (ang + baseAngle)) else wrap180 (ang + baseAngle)) :=
  ⟨wrap180_lb _, wrap180_ub _, wrap180_sub_int _, rfl⟩

/-! ## Rig metadata extraction and part rendering (`Pantin.tsx`)

Elements are modelled with their rig-relevant data: id, the
`data-interactive="true"` flag, the parsed `data-pivot="x, y"` attribute
(`none` when absent or unparsable), the legacy direct-child
`<circle class="pivot">` center, and child elements. -/

structure SvgElem where
  id : Option String
  interactive : Bool
  dataPivot : Option (ℚ × ℚ)
  pivotCircle : Option (ℚ × ℚ)
  children : List SvgElem
  deriving Repr

/-- `querySelector('[data-pivot]')` relative to a node list: depth-first
document order over the elements and their descendants. -/
def findDescendantPivot : List SvgElem → Option (ℚ × ℚ)
  | [] => none
  | ⟨_, _, dataPivot, _, children⟩ :: rest =>
    match dataPivot with
    | some p => some p
    | none =>
      match findDescendantPivot children with
      | some p => some p
      | none => findDescendantPivot rest

/-- `findPivotCoords` from `Pantin.tsx`: `data-pivot` on the element itself,
then on a descendant, then the legacy pivot circle. -/
def findPivotCoords (el : SvgElem) : Option (ℚ × ℚ) :=
  match el.dataPivot with
  | some p => some p
  | none =>
    match findDescendantPivot el.children with
    | some p => some p
    | none => el.pivotCircle

/-- JS object-style insertion into an association list: replace in place if
the key exists, else append. -/
def setAssoc {β : Type} (l : List (String × β)) (k : String) (v : β) :
    List (String × β) :=
  if l.any (fun p => p.1 == k)
  then l.map (fun p => if p.1 == k then (k, v) else p)
  else l ++ [(k, v)]

/-- `querySelectorAll('[data-interactive="true"]')` in document order. -/
def collectInteractive : List SvgElem → List SvgElem
  | [] => []
  | ⟨i, interactive, dp, pc, children⟩ :: rest =>
    (if interactive then [⟨i, interactive, dp, pc, children⟩] else [])
      ++ collectInteractive children ++ collectInteractive rest

/-- The `pivots` map built by `parsedSvg`: for each interactive node with an
id, record `findPivotCoords` when it succeeds; skip the part otherwise. -/
def extractPivots (es : List SvgElem) : List (String × (ℚ × ℚ)) :=
  (collectInteractive es).foldl
    (fun acc e =>
      match e.id with
      | none => acc
      | some i =>
        match findPivotCoords e with
        | none => acc
        | some p => setAssoc acc i p)
    []

/-- The style computed by `SvgPart` for one element: `transformOrigin` is set
only when the pivots map has an entry; the `rotate(angle deg)` transform is
applied whenever the element has an id and is interactive. -/
structure PartStyle where
  transformOrigin : Option (ℚ × ℚ)
  rotation : Option ℚ
  deriving DecidableEq, Repr

def svgPartStyle (pivots : List (String × (ℚ × ℚ)))
    (articulation : List (String × ℚ)) (el : SvgElem) : PartStyle :=
  match el.id with
  | some partId =>
    if el.interactive then
      { transformOrigin := pivots.lookup partId
        rotation := some ((articulation.lookup partId).getD 0) }
    else ⟨none, none⟩
  | none => ⟨none, none⟩

/-- C8 counterexample: an interactive part with no resolvable pivot and
stored angle 90° still gets `rotate(90deg)` applied — it does not stay
unrotated. -/
theorem svgPart_rotation_no_pivot_cex :
    findPivotCoords ⟨some "arm", true, none, none, []⟩ = none ∧
    extractPivots [⟨some "arm", true, none, none, []⟩] = [] ∧
    (svgPartStyle (extractPivots [⟨some "arm", true, none, none, []⟩])
        [("arm", 90)] ⟨some "arm", true, none, none, []⟩).rotation = some 90 ∧
    (90 : ℚ) ≠ 0 := by
  refine ⟨?_, ?_, ?_, by norm_num⟩
  · simp [findPivotCoords, findDescendantPivot]
  · simp [extractPivots, collectInteractive, findPivotCoords, findDescendantPivot]
  · simp [svgPartStyle, extractPivots, collectInteractive, findPivotCoords,
      findDescendantPivot]

/-- C8 (amended): when no pivot resolves for an interactive part, rendering
sets no transform-origin but still applies the stored rotation
(`rotate(angle)` about the default origin); extraction skips the part and
proceeds for the rest of the document. -/
theorem svgPart_no_pivot_spec (pivots : List (String × (ℚ × ℚ)))
    (articulation : List (String × ℚ)) (e : SvgElem) (i : String)
    (hid : e.id = some i) (hinter : e.interactive = true)
    (hpiv : pivots.lookup i = none) :
    svgPartStyle pivots articulation e =
      ⟨none, some ((articulation.lookup i).getD 0)⟩ ∧
    (∀ rest : List SvgElem, findPivotCoords e = none → e.children = [] →
      extractPivots (e :: rest) = extractPivots rest) := by
  obtain ⟨eid, einter, edp, epc, ech⟩ := e
  simp only at hid hinter
  subst hid hinter
  constructor
  · simp [svgPartStyle, hpiv]
  · intro rest hfp hch
    simp only at hch
    subst hch
    simp only [extractPivots, collectInteractive, if_pos, List.append_nil,
      List.nil_append, List.singleton_append, List.foldl_cons, hfp]

/-- Witness for C8 (amended) at a concrete pivot-less part. -/
theorem svgPart_no_pivot_spec_witness :
    svgPartStyle [] [("arm", 90)] ⟨some "arm", true, none, none, []⟩ =
      ⟨none, some (([(("arm" : String), (90 : ℚ))].lookup "arm").getD 0)⟩ ∧
    (∀ rest : List SvgElem,
      findPivotCoords ⟨some "arm", true, none, none, []⟩ = none →
      SvgElem.children ⟨some "arm", true, none, none, []⟩ = [] →
      extractPivots (⟨some "arm", true, none, none, []⟩ :: rest) = extractPivots rest) :=
  svgPart_no_pivot_spec [] [("arm", 90)] ⟨some "arm", true, none, none, []⟩ "arm"
    rfl rfl rfl

/-! ## Timeline track model and evaluator (`timelineUtils`) -/

inductive Interp where
  | linear
  | step
  deriving DecidableEq, Repr

structure Keyframe (α : Type) where
  frame : ℚ
  value : α
  interpolation : Option Interp
  deriving DecidableEq, Repr

/-- `findSpan` from `timelineUtils`: scan the (assumed sorted) keyframes,
returning `(k, k)` on an exact frame match, otherwise the last keyframe
before and the first after the frame. -/
def findSpanAux {α : Type} (frame : ℚ) (prev : Option (Keyframe α)) :
    List (Keyframe α) → Option (Keyframe α) × Option (Keyframe α)
  | [] => (prev, none)
  | k :: rest =>
    if k.frame = frame then (some k, some k)
    else if k.frame < frame then findSpanAux frame (some k) rest
    else (prev, some k)

def findSpan {α : Type} (keyframes : List (Keyframe α)) (frame : ℚ) :
    Option (Keyframe α) × Option (Keyframe α) :=
  findSpanAux frame none keyframes

def lerp (a b t : ℚ) : ℚ := a + (b - a) * t

/-- `evaluateNumber` (rotation and articulation tracks). -/
def evaluateNumber (keyframes : List (Keyframe ℚ)) (frame : ℚ) : Option ℚ :=
  match findSpan keyframes frame with
  | (none, none) => none
  | (some p, none) => some p.value
  | (none, some n) => some n.value
  | (some p, some n) =>
    if p = n then some p.value
    else
      let interp := n.interpolation.getD Interp.linear
      if interp = Interp.step then some p.value
      else
        let span := n.frame - p.frame
        let t := if span = 0 then 0 else (frame - p.frame) / span
        some (lerp p.value n.value t)

structure Pos where
  x : ℚ
  y : ℚ
  deriving DecidableEq, Repr

/-- `evaluatePosition`: x and y interpolate independently. -/
def evaluatePosition (keyframes : List (Keyframe Pos)) (frame : ℚ) : Option Pos :=
  match findSpan keyframes frame with
  | (none, none) => none
  | (some p, none) => some p.value
  | (none, some n) => some n.value
  | (some p, some n) =>
    if p = n then some p.value
    else
      let interp := n.interpolation.getD Interp.linear
      if interp = Interp.step then some p.value
      else
        let span := n.frame - p.frame
        let t := if span = 0 then 0 else (frame - p.frame) / span
        some ⟨lerp p.value.x n.value.x t, lerp p.value.y n.value.y t⟩

/-- `evaluateVisibility`: boolean tracks never interpolate. -/
def evaluateVisibility (keyframes : List (Keyframe Bool)) (frame : ℚ) : Option Bool :=
  match findSpan keyframes frame with
  | (none, none) => none
  | (some p, none) => some p.value
  | (none, some n) => some n.value
  | (some p, _) => some p.value

/-- `TimelineTrack`: one property stream for one object. -/
inductive Track where
  | position (id objectId : String) (keyframes : List (Keyframe Pos))
  | rotation (id objectId : String) (keyframes : List (Keyframe ℚ))
  | visibility (id objectId : String) (keyframes : List (Keyframe Bool))
  | articulation (id objectId : String) (part : String) (keyframes : List (Keyframe ℚ))
  deriving DecidableEq, Repr

def Track.objectId : Track → String
  | .position _ oid _ => oid
  | .rotation _ oid _ => oid
  | .visibility _ oid _ => oid
  | .articulation _ oid _ _ => oid

/-- A track with no keyframes. -/
def Track.noKeyframes : Track → Prop
  | .position _ _ kfs => kfs = []
  | .rotation _ _ kfs => kfs = []
  | .visibility _ _ kfs => kfs = []
  | .articulation _ _ _ kfs => kfs = []

/-- The per-object override patch (`Partial<SvgObject>` as written by
`computeOverrides`). -/
structure Patch where
  x : Option ℤ := none
  y : Option ℤ := none
  rotation : Option ℤ := none
  hidden : Option Bool := none
  articulation : List (String × ℤ) := []
  deriving DecidableEq, Repr

def Patch.empty : Patch := {}

/-- One iteration of the `computeOverrides` loop body applied to the
object's current patch. -/
def applyTrack (currentFrame : ℚ) (patch : Patch) : Track → Patch
  | .position _ _ kfs =>
    match evaluatePosition kfs currentFrame with
    | some v => { patch with x := some (jsRound v.x), y := some (jsRound v.y) }
    | none => patch
  | .rotation _ _ kfs =>
    match evaluateNumber kfs currentFrame with
    | some v => { patch with rotation := some (jsRound v) }
    | none => patch
  | .visibility _ _ kfs =>
    match evaluateVisibility kfs currentFrame with
    | some v => { patch with hidden := some (!v) }
    | none => patch
  | .articulation _ _ part kfs =>
    match evaluateNumber kfs currentFrame with
    | some v => { patch with articulation := setAssoc patch.articulation part (jsRound v) }
    | none => patch

/-- `if (!overrides[targetId]) overrides[targetId] = {}` followed by the
field updates, on an association-list model of the JS object. -/
def updateEntry (ov : List (String × Patch)) (k : String) (f : Patch → Patch) :
    List (String × Patch) :=
  if ov.any (fun p => p.1 == k)
  then ov.map (fun p => if p.1 == k then (k, f p.2) else p)
  else ov ++ [(k, f Patch.empty)]

/-- `computeOverrides` from `timelineUtils`. -/
def computeOverrides (currentFrame : ℚ) (tracks : List Track) :
    List (String × Patch) :=
  tracks.foldl
    (fun ov t => updateEntry ov t.objectId (fun patch => applyTrack currentFrame patch t))
    []

/-- Stable insertion of a keyframe before the first strictly-later frame. -/
def insertByFrame {α : Type} (kf : Keyframe α) :
    List (Keyframe α) → List (Keyframe α)
  | [] => [kf]
  | x :: xs => if kf.frame ≤ x.frame then kf :: x :: xs else x :: insertByFrame kf xs

/-- `arr.sort((a, b) => a.frame - b.frame)` (stable, by frame). -/
def sortByFrame {α : Type} (l : List (Keyframe α)) : List (Keyframe α) :=
  l.foldr insertByFrame []

/-- `upsertKeyframe`: drop any keyframe at the same frame, append the new
one, re-sort by frame. -/
def upsertKeyframe {α : Type} (arr : List (Keyframe α)) (kf : Keyframe α) :
    List (Keyframe α) :=
  sortByFrame ((arr.filter fun k => k.frame != kf.frame) ++ [kf])

/-- JS `%` on integers (truncated remainder), as used by `tick`. -/
def jsIntRem (a b : ℤ) : ℤ := a - b * Int.tdiv a b

/-- The frame-advance branch of `tick` in `Timeline.tsx`: given the current
frame, the duration, the number of whole frames elapsed and the loop flag,
return the new `(currentFrame, isPlaying)`. -/
def tickAdvance (cf dur framesToAdvance : ℤ) (loop : Bool) : ℤ × Bool :=
  if 0 < framesToAdvance then
    let next := cf + framesToAdvance
    if dur ≤ next then
      if loop then (jsIntRem next dur, true) else (dur, false)
    else (next, true)
  else (cf, true)

/-- C6: when advancing by `n ≥ 1` whole frames reaches or passes `duration`,
a looping timeline wraps modulo `duration` (keeping playback on) and a
non-looping one clamps to `duration` and stops. -/
theorem tickAdvance_wrap_or_clamp (cf dur n : ℤ) (hcf : 0 ≤ cf) (hdur : 0 < dur)
    (hn : 0 < n) (hreach : dur ≤ cf + n) :
    tickAdvance cf dur n true = ((cf + n) % dur, true) ∧
    tickAdvance cf dur n false = (dur, false) := by
  have hnext : 0 ≤ cf + n := by linarith
  have hr : jsIntRem (cf + n) dur = (cf + n) % dur := by
    unfold jsIntRem
    rw [Int.tdiv_eq_ediv hnext (le_of_lt hdur), Int.emod_def]
  constructor <;> simp [tickAdvance, hn, hreach, hr]

/-- Witness for C6: the spec's scenario `duration=100, currentFrame=98`,
advancing 5 frames. -/
theorem tickAdvance_wrap_or_clamp_witness :
    tickAdvance 98 100 5 true = (3, true) ∧
    tickAdvance 98 100 5 false = (100, false) := by
  obtain ⟨h1, h2⟩ := tickAdvance_wrap_or_clamp 98 100 5 (by norm_num) (by norm_num)
    (by norm_num) (by norm_num)
  refine ⟨?_, h2⟩
  rw [h1]
  norm_num

theorem insertByFrame_perm {α : Type} (kf : Keyframe α) (l : List (Keyframe α)) :
    List.Perm (insertByFrame kf l) (kf :: l) := by
  induction l with
  | nil => exact List.Perm.refl _
  | cons x xs ih =>
    unfold insertByFrame
    split
    · exact List.Perm.refl _
    · exact (List.Perm.cons x ih).trans (List.Perm.swap kf x xs)

theorem sortByFrame_perm {α : Type} (l : List (Keyframe α)) : List.Perm (sortByFrame l) l := by
  induction l with
  | nil => exact List.Perm.refl _
  | cons x xs ih =>
    unfold sortByFrame at *
    simp only [List.foldr_cons]
    exact (insertByFrame_perm x _).trans (List.Perm.cons x ih)

theorem insertByFrame_sorted {α : Type} (kf : Keyframe α) (l : List (Keyframe α))
    (h : l.Pairwise (fun a b => a.frame ≤ b.frame)) :
    (insertByFrame kf l).Pairwise (fun a b => a.frame ≤ b.frame) := by
  induction l with
  | nil => simp [insertByFrame]
  | cons x xs ih =>
    rcases List.pairwise_cons.mp h with ⟨hx, hxs⟩
    unfold insertByFrame
    split
    · rename_i hle
      refine List.pairwise_cons.mpr ⟨?_, h⟩
      intro b hb
      rcases List.mem_cons.mp hb with hb | hb
      · rw [hb]; exact hle
      · exact le_trans hle (hx b hb)
    · rename_i hgt
      have hxk : x.frame ≤ kf.frame := le_of_lt (lt_of_not_ge hgt)
      refine List.pairwise_cons.mpr ⟨?_, ih hxs⟩
      intro b hb
      have hb' : b ∈ kf :: xs := (insertByFrame_perm kf xs).mem_iff.mp hb
      rcases List.mem_cons.mp hb' with hb' | hb'
      · rw [hb']; exact hxk
      · exact hx b hb'

theorem sortByFrame_sorted {α : Type} (l : List (Keyframe α)) :
    (sortByFrame l).Pairwise (fun a b => a.frame ≤ b.frame) := by
  induction l with
  | nil => simp [sortByFrame]
  | cons x xs ih =>
    unfold sortByFrame at *
    simp only [List.foldr_cons]
    exact insertByFrame_sorted x _ ih

/-- C9: upsert keeps keyframes sorted by frame; the upserted frame holds
exactly the new keyframe (insertion at an existing frame replaces it);
upserting the same keyframe twice leaves exactly one keyframe at that
frame; and at-most-one-keyframe-per-frame is preserved. -/
theorem upsertKeyframe_spec {α : Type} (arr : List (Keyframe α)) (kf : Keyframe α) :
    (upsertKeyframe arr kf).Pairwise (fun a b => a.frame ≤ b.frame) ∧
    (upsertKeyframe arr kf).filter (fun k => k.frame == kf.frame) = [kf] ∧
    (upsertKeyframe (upsertKeyframe arr kf) kf).filter
      (fun k => k.frame == kf.frame) = [kf] ∧
    (∀ F : ℚ, (∀ G : ℚ, arr.countP (fun k => k.frame == G) ≤ 1) →
      (upsertKeyframe arr kf).countP (fun k => k.frame == F) ≤ 1) := by
  have hfilter : ∀ l : List (Keyframe α),
      (upsertKeyframe l kf).filter (fun k => k.frame == kf.frame) = [kf] := by
    intro l
    have hperm : List.Perm (upsertKeyframe l kf) ((l.filter fun k => k.frame != kf.frame) ++ [kf]) :=
      sortByFrame_perm _
    have hfp := hperm.filter (fun k => k.frame == kf.frame)
    rw [List.filter_append, List.filter_filter] at hfp
    have h1 : (l.filter fun k => (k.frame == kf.frame) && (k.frame != kf.frame)) = [] := by
      apply List.filter_eq_nil.mpr
      intro k _
      simp [bne]
    have h2 : List.filter (fun k => k.frame == kf.frame) [kf] = [kf] := by
      simp
    rw [h1, h2, List.nil_append] at hfp
    exact List.perm_singleton.mp hfp
  refine ⟨?_, hfilter arr, hfilter _, ?_⟩
  · exact sortByFrame_sorted _
  · intro F harr
    have hperm : List.Perm (upsertKeyframe arr kf) ((arr.filter fun k => k.frame != kf.frame) ++ [kf]) :=
      sortByFrame_perm _
    rw [hperm.countP_eq, List.countP_append]
    by_cases hF : kf.frame = F
    · have h1 : (arr.filter fun k => k.frame != kf.frame).countP
          (fun k => k.frame == F) = 0 := by
        rw [List.countP_filter]
        apply List.countP_eq_zero.mpr
        intro k _
        simp [bne, hF]
      have h2 : List.countP (fun k => k.frame == F) [kf] = 1 := by
        simp [List.countP_cons, hF]
      omega
    · have h2 : List.countP (fun k => k.frame == F) [kf] = 0 := by
        simp [List.countP_cons, hF]
      have h1 : (arr.filter fun k => k.frame != kf.frame).countP
          (fun k => k.frame == F) ≤ arr.countP (fun k => k.frame == F) := by
        rw [List.countP_filter]
        apply List.countP_mono_left
        intro k _ hk
        exact (Bool.and_elim_left hk)
      have := harr F
      omega

theorem findSpanAux_exact {α : Type} (frame : ℚ) (k : Keyframe α) :
    ∀ (kfs : List (Keyframe α)) (prev : Option (Keyframe α)),
      kfs.Pairwise (fun a b => a.frame < b.frame) → k ∈ kfs → k.frame = frame →
      findSpanAux frame prev kfs = (some k, some k) := by
  intro kfs
  induction kfs with
  | nil =>
    intro prev _ hmem _
    simp at hmem
  | cons x xs ih =>
    intro prev hsort hmem heq
    rcases List.pairwise_cons.mp hsort with ⟨hx, hxs⟩
    rcases List.mem_cons.mp hmem with hk | hmem'
    · subst hk
      unfold findSpanAux
      rw [if_pos heq]
    · have hlt : x.frame < frame := heq ▸ hx k hmem'
      unfold findSpanAux
      rw [if_neg (ne_of_lt hlt), if_pos hlt]
      exact ih (some x) hxs hmem' heq

/-- On a strictly sorted track, an exact frame match short-circuits to
`(k, k)`. -/
theorem findSpan_exact {α : Type} (kfs : List (Keyframe α)) (k : Keyframe α)
    (frame : ℚ) (hsort : kfs.Pairwise (fun a b => a.frame < b.frame))
    (hmem : k ∈ kfs) (heq : k.frame = frame) :
    findSpan kfs frame = (some k, some k) :=
  findSpanAux_exact frame k kfs none hsort hmem heq

theorem findSpanAux_bracket {α : Type} (frame : ℚ) (p n : Keyframe α)
    (l2 : List (Keyframe α)) :
    ∀ (l1 : List (Keyframe α)) (prev : Option (Keyframe α)),
      (l1 ++ p :: n :: l2).Pairwise (fun a b => a.frame < b.frame) →
      p.frame < frame → frame < n.frame →
      findSpanAux frame prev (l1 ++ p :: n :: l2) = (some p, some n) := by
  intro l1
  induction l1 with
  | nil =>
    intro prev _ hp hn
    simp only [List.nil_append]
    unfold findSpanAux
    rw [if_neg (ne_of_lt hp), if_pos hp]
    unfold findSpanAux
    rw [if_neg (ne_of_gt hn), if_neg (not_lt.mpr (le_of_lt hn))]
  | cons x l1' ih =>
    intro prev hsort hp hn
    rw [List.cons_append] at hsort
    rcases List.pairwise_cons.mp hsort with ⟨hx, hrest⟩
    have hxf : x.frame < frame := lt_trans (hx p (by simp)) hp
    rw [List.cons_append]
    unfold findSpanAux
    rw [if_neg (ne_of_lt hxf), if_pos hxf]
    exact ih (some x) hrest hp hn

/-- On a strictly sorted track, a frame strictly between two consecutive
keyframes brackets to exactly that pair. -/
theorem findSpan_bracket {α : Type} (l1 l2 : List (Keyframe α)) (p n : Keyframe α)
    (frame : ℚ)
    (hsort : (l1 ++ p :: n :: l2).Pairwise (fun a b => a.frame < b.frame))
    (hp : p.frame < frame) (hn : frame < n.frame) :
    findSpan (l1 ++ p :: n :: l2) frame = (some p, some n) :=
  findSpanAux_bracket frame p n l2 l1 none hsort hp hn

/-- Witness for C9 at a concrete track and keyframe. -/
theorem upsertKeyframe_spec_witness :
    ((upsertKeyframe [⟨0, (5 : ℚ), some Interp.linear⟩] ⟨0, 7, some Interp.linear⟩).Pairwise
      (fun a b => a.frame ≤ b.frame) ∧
     (upsertKeyframe [⟨0, (5 : ℚ), some Interp.linear⟩] ⟨0, 7, some Interp.linear⟩).filter
      (fun k => k.frame == (0 : ℚ)) = [⟨0, 7, some Interp.linear⟩] ∧
     (upsertKeyframe (upsertKeyframe [⟨0, (5 : ℚ), some Interp.linear⟩]
        ⟨0, 7, some Interp.linear⟩) ⟨0, 7, some Interp.linear⟩).filter
      (fun k => k.frame == (0 : ℚ)) = [⟨0, 7, some Interp.linear⟩] ∧
     (∀ F : ℚ,
       (∀ G : ℚ, List.countP (fun k => k.frame == G)
          [(⟨0, (5 : ℚ), some Interp.linear⟩ : Keyframe ℚ)] ≤ 1) →
       (upsertKeyframe [⟨0, (5 : ℚ), some Interp.linear⟩]
          ⟨0, 7, some Interp.linear⟩).countP (fun k => k.frame == F) ≤ 1)) :=
  upsertKeyframe_spec [⟨0, 5, some Interp.linear⟩] ⟨0, 7, some Interp.linear⟩

/-- C4: for a frame strictly between two consecutive keyframes whose `next`
interpolates linearly (explicitly or by default), the evaluator returns
`prev.value + (next.value - prev.value) * t` with
`t = (frame - prev.frame) / (next.frame - prev.frame)`; position tracks
interpolate x and y independently; and the spec's scenario track
`{0 ↦ 0, 10 ↦ 100}` evaluates to 50 at frame 5. -/
theorem evaluate_linear_spec (frame : ℚ) :
    (∀ (l1 l2 : List (Keyframe ℚ)) (p n : Keyframe ℚ),
      (l1 ++ p :: n :: l2).Pairwise (fun a b => a.frame < b.frame) →
      p.frame < frame → frame < n.frame →
      n.interpolation.getD Interp.linear = Interp.linear →
      evaluateNumber (l1 ++ p :: n :: l2) frame
        = some (lerp p.value n.value ((frame - p.frame) / (n.frame - p.frame)))) ∧
    (∀ (l1 l2 : List (Keyframe Pos)) (p n : Keyframe Pos),
      (l1 ++ p :: n :: l2).Pairwise (fun a b => a.frame < b.frame) →
      p.frame < frame → frame < n.frame →
      n.interpolation.getD Interp.linear = Interp.linear →
      evaluatePosition (l1 ++ p :: n :: l2) frame
        = some ⟨lerp p.value.x n.value.x ((frame - p.frame) / (n.frame - p.frame)),
                lerp p.value.y n.value.y ((frame - p.frame) / (n.frame - p.frame))⟩) ∧
    evaluateNumber [⟨0, 0, some Interp.linear⟩, ⟨10, 100, some Interp.linear⟩] 5
      = some 50 := by
  have hnum : ∀ (l1 l2 : List (Keyframe ℚ)) (p n : Keyframe ℚ),
      (l1 ++ p :: n :: l2).Pairwise (fun a b => a.frame < b.frame) →
      p.frame < frame → frame < n.frame →
      n.interpolation.getD Interp.linear = Interp.linear →
      evaluateNumber (l1 ++ p :: n :: l2) frame
        = some (lerp p.value n.value ((frame - p.frame) / (n.frame - p.frame))) := by
    intro l1 l2 p n hsort hp hn hlin
    have hspan := findSpan_bracket l1 l2 p n frame hsort hp hn
    have hpn : p ≠ n := by
      intro h
      rw [h] at hp
      exact absurd hn (not_lt.mpr (le_of_lt hp))
    have hdz : n.frame - p.frame ≠ 0 :=
      sub_ne_zero_of_ne (ne_of_gt (lt_trans hp hn))
    unfold evaluateNumber
    rw [hspan]
    simp only [hpn, if_false, hlin, if_neg, hdz]
    simp [hpn, hlin, hdz]
  refine ⟨hnum, ?_, ?_⟩
  · intro l1 l2 p n hsort hp hn hlin
    have hspan := findSpan_bracket l1 l2 p n frame hsort hp hn
    have hpn : p ≠ n := by
      intro h
      rw [h] at hp
      exact absurd hn (not_lt.mpr (le_of_lt hp))
    have hdz : n.frame - p.frame ≠ 0 :=
      sub_ne_zero_of_ne (ne_of_gt (lt_trans hp hn))
    unfold evaluatePosition
    rw [hspan]
    simp [hpn, hlin, hdz]
  · have hspan := findSpan_bracket ([] : List (Keyframe ℚ)) []
      ⟨0, 0, some Interp.linear⟩ ⟨10, 100, some Interp.linear⟩ 5
      (by norm_num) (by norm_num) (by norm_num)
    rw [List.nil_append] at hspan
    unfold evaluateNumber
    rw [hspan]
    norm_num [lerp, Keyframe.mk.injEq]
    decide

/-- Witness for C4 at the spec's scenario track. -/
theorem evaluate_linear_spec_witness :
    evaluateNumber [⟨0, 0, some Interp.linear⟩, ⟨10, 100, some Interp.linear⟩] 5
      = some (lerp 0 100 ((5 - 0) / (10 - 0))) := by
  have h := (evaluate_linear_spec 5).1 [] [] ⟨0, 0, some Interp.linear⟩
    ⟨10, 100, some Interp.linear⟩ (by norm_num) (by norm_num) (by norm_num) rfl
  rw [List.nil_append] at h
  exact h

/-- C5: evaluation is a pure function of its inputs, and on a strictly
sorted track a keyframe sitting exactly at the evaluation frame is returned
verbatim (no interpolation), for number, position and visibility tracks. -/
theorem evaluate_exact_frame_spec (frame : ℚ) :
    (∀ tracks : List Track,
      computeOverrides frame tracks = computeOverrides frame tracks) ∧
    (∀ (kfs : List (Keyframe ℚ)) (k : Keyframe ℚ),
      kfs.Pairwise (fun a b => a.frame < b.frame) → k ∈ kfs → k.frame = frame →
      evaluateNumber kfs frame = some k.value) ∧
    (∀ (kfs : List (Keyframe Pos)) (k : Keyframe Pos),
      kfs.Pairwise (fun a b => a.frame < b.frame) → k ∈ kfs → k.frame = frame →
      evaluatePosition kfs frame = some k.value) ∧
    (∀ (kfs : List (Keyframe Bool)) (k : Keyframe Bool),
      kfs.Pairwise (fun a b => a.frame < b.frame) → k ∈ kfs → k.frame = frame →
      evaluateVisibility kfs frame = some k.value) := by
  refine ⟨fun _ => rfl, ?_, ?_, ?_⟩
  · intro kfs k hsort hmem heq
    unfold evaluateNumber
    rw [findSpan_exact kfs k frame hsort hmem heq]
    simp
  · intro kfs k hsort hmem heq
    unfold evaluatePosition
    rw [findSpan_exact kfs k frame hsort hmem heq]
    simp
  · intro kfs k hsort hmem heq
    unfold evaluateVisibility
    rw [findSpan_exact kfs k frame hsort hmem heq]

/-- Witness for C5 at a concrete single-keyframe track. -/
theorem evaluate_exact_frame_spec_witness :
    evaluateNumber [⟨5, 42, none⟩] 5 = some 42 :=
  (evaluate_exact_frame_spec 5).2.1 [⟨5, 42, none⟩] ⟨5, 42, none⟩
    (by simp) (by simp) rfl

/-- Witness for C3 at a concrete mirrored pair and articulation map. -/
theorem effectiveAngle_spec_witness :
    (effectiveAngle [("main_gauche", 30)] true "main_droite" =
      if true then -(renderAngle [("main_gauche", 30)]
        ((mirrorOf "main_droite").getD "main_droite"))
      else renderAngle [("main_gauche", 30)] "main_droite") ∧
    (effectiveAngle [("main_gauche", 30)] true "main_droite" =
      visualElementAngle [("main_gauche", 30)] true (elementAtSlot true "main_droite")) ∧
    (∀ L R, (L, R) ∈ MIRROR_MAP →
      effectiveAngle [("main_gauche", 30)] true L =
        -(renderAngle [("main_gauche", 30)] R) ∧
      effectiveAngle [("main_gauche", 30)] true R =
        -(renderAngle [("main_gauche", 30)] L)) :=
  effectiveAngle_spec [("main_gauche", 30)] true "main_droite"

theorem updateEntry_keyMem (ov : List (String × Patch)) (k : String)
    (f : Patch → Patch) (id : String) :
    id ∈ (updateEntry ov k f).map Prod.fst ↔
      (id ∈ ov.map Prod.fst ∨ id = k) := by
  unfold updateEntry
  split
  · rename_i hany
    rw [List.map_map]
    constructor
    · intro h
      rcases List.mem_map.mp h with ⟨pr, hpr, heq⟩
      by_cases hk : pr.1 == k
      · right
        simp only [Function.comp, hk, if_pos] at heq
        exact heq.symm
      · left
        simp only [Function.comp, hk] at heq
        simp only [Bool.false_eq_true, if_false] at heq
        exact List.mem_map.mpr ⟨pr, hpr, heq⟩
    · intro h
      rcases h with h | h
      · rcases List.mem_map.mp h with ⟨pr, hpr, heq⟩
        apply List.mem_map.mpr
        refine ⟨pr, hpr, ?_⟩
        show (if pr.1 == k then (k, f pr.2) else pr).1 = id
        by_cases hk : (pr.1 == k) = true
        · rw [if_pos hk]
          have hpk : pr.1 = k := by simpa using hk
          show k = id
          rw [← hpk]
          exact heq
        · rw [if_neg hk]
          exact heq
      · rcases List.any_eq_true.mp hany with ⟨q, hq, hqk⟩
        apply List.mem_map.mpr
        refine ⟨q, hq, ?_⟩
        show (if q.1 == k then (k, f q.2) else q).1 = id
        rw [if_pos hqk]
        exact h.symm
  · rw [List.map_append]
    simp

theorem computeOverrides_foldl_keyMem (frame : ℚ) :
    ∀ (tracks : List Track) (ov : List (String × Patch)) (id : String),
      id ∈ ((tracks.foldl
        (fun ov t => updateEntry ov t.objectId
          (fun patch => applyTrack frame patch t)) ov).map Prod.fst) ↔
      (id ∈ ov.map Prod.fst ∨ ∃ t ∈ tracks, Track.objectId t = id) := by
  intro tracks
  induction tracks with
  | nil => simp
  | cons t ts ih =>
    intro ov id
    simp only [List.foldl_cons]
    rw [ih, updateEntry_keyMem]
    simp only [List.mem_cons]
    constructor
    · rintro ((h | h) | ⟨t', ht', hoid⟩)
      · exact Or.inl h
      · exact Or.inr ⟨t, Or.inl rfl, h.symm⟩
      · exact Or.inr ⟨t', Or.inr ht', hoid⟩
    · rintro (h | ⟨t', (rfl | ht'), hoid⟩)
      · exact Or.inl (Or.inl h)
      · exact Or.inl (Or.inr hoid.symm)
      · exact Or.inr ⟨t', ht', hoid⟩

/-- C10: the override map has exactly one entry per track object id — every
track contributes its key even when it contributes no values, and a track
with no keyframes leaves an empty patch. -/
theorem computeOverrides_keys_spec (frame : ℚ) (tracks : List Track) :
    (∀ id : String,
      id ∈ (computeOverrides frame tracks).map Prod.fst ↔
        ∃ t ∈ tracks, Track.objectId t = id) ∧
    (∀ t : Track, t.noKeyframes →
      computeOverrides frame [t] = [(t.objectId, Patch.empty)]) := by
  constructor
  · intro id
    unfold computeOverrides
    rw [computeOverrides_foldl_keyMem frame tracks [] id]
    simp
  · intro t ht
    cases t with
    | position i oid kfs =>
      have hk : kfs = [] := ht
      subst hk
      rfl
    | rotation i oid kfs =>
      have hk : kfs = [] := ht
      subst hk
      rfl
    | visibility i oid kfs =>
      have hk : kfs = [] := ht
      subst hk
      rfl
    | articulation i oid part kfs =>
      have hk : kfs = [] := ht
      subst hk
      rfl

/-- Witness for C10: a keyframe-less track still yields its (empty) entry. -/
theorem computeOverrides_keys_spec_witness :
    computeOverrides 0 [Track.position "trk" "obj" []] = [("obj", Patch.empty)] :=
  (computeOverrides_keys_spec 0 [Track.position "trk" "obj" []]).2
    (Track.position "trk" "obj" []) rfl

end Walou
